import Mathlib

/-!
Verification development for the roam-time-blocking core:
the time-range parser (`src/core/timeParser.ts`), the category resolver
(`src/core/tagResolver.ts`), the page scanner (`src/core/blockScanner.ts`)
and the overlap column layout (`src/ui/TimeGrid.tsx`, `calculateBlockLayouts`).

JavaScript numbers that only ever hold (small) integers are modelled as `Int`;
strings as Lean `String` / `List Char`; `Map` objects as association lists with
JS `Map.set`/`Map.get` semantics; regular expressions as explicit executable
matchers over `List Char` with JS leftmost-match search semantics.
-/

namespace RoamTB

/-! ### Data model (src/types/index.ts) -/

/-- `ParsedTimeRange` from `src/types/index.ts`. -/
structure ParsedTimeRange where
  startHour : Int
  startMinute : Int
  endHour : Int
  endMinute : Int
  originalText : String
deriving DecidableEq, Repr

/-- `TagConfig` from `src/types/index.ts`. -/
structure TagConfig where
  tag : String
  color : String
  isPageRef : Bool
deriving DecidableEq, Repr

/-- `TimeBlockData` from `src/types/index.ts`. -/
structure TimeBlockData where
  uid : String
  text : String
  timeRange : ParsedTimeRange
  tag : Option TagConfig
  parentUid : String
  order : Int
deriving DecidableEq, Repr

/-! ### Time parser (src/core/timeParser.ts)

The three regular expressions in `TIME_PATTERNS` are embedded as explicit
matchers over `List Char`.  JS `String.prototype.match` returns the leftmost
match, so each pattern gets an "at this position" matcher that is then tried
at every position from the left (`searchAt`).

In each pattern `\d{1,2}` is immediately followed by a character class
disjoint from `\d` (`:` for the hour-with-minutes patterns, `\s`/`[ap]` for
the short 12-hour pattern), so the regex backtracking for `\d{1,2}` is
equivalent to the deterministic rule "take a second digit exactly when the
next character is a digit"; similarly `\s*` is always followed by a
non-space character class, so greedy maximal munch needs no backtracking. -/

/-- JS `\d` character class: exactly the ASCII digits. -/
def isDigitChar (c : Char) : Bool := decide ('0' ≤ c) && decide (c ≤ '9')

/-- JS `\s` character class (the members relevant to this code base:
ASCII whitespace plus no-break space). -/
def isSpaceChar (c : Char) : Bool :=
  c = ' ' || c = '\t' || c = '\n' || c = '\r' || c = '\x0b' || c = '\x0c' ||
  c = Char.ofNat 160

/-- Greedy `\s*`: the maximal run of space characters and the rest. -/
def takeSpaces : List Char → List Char × List Char
  | [] => ([], [])
  | c :: cs =>
    if isSpaceChar c then
      let p := takeSpaces cs
      (c :: p.1, p.2)
    else ([], c :: cs)

/-- `\d{1,2}` (greedy): one digit, plus a second one exactly when present.
Equivalent to the backtracking semantics because in every use site the
pattern continues with a character that is not a digit. -/
def takeDigits12 : List Char → Option (List Char × List Char)
  | [] => none
  | [c1] => if isDigitChar c1 then some ([c1], []) else none
  | c1 :: c2 :: rest =>
    if isDigitChar c1 then
      if isDigitChar c2 then some ([c1, c2], rest)
      else some ([c1], c2 :: rest)
    else none

/-- `\d{2}`: exactly two digits. -/
def takeMin2 : List Char → Option (List Char × List Char)
  | c1 :: c2 :: rest =>
    if isDigitChar c1 && isDigitChar c2 then some ([c1, c2], rest) else none
  | _ => none

/-- `(am|pm)` under the `i` flag. -/
def takeAmPm : List Char → Option (List Char × List Char)
  | c1 :: c2 :: rest =>
    if (c1.toLower = 'a' || c1.toLower = 'p') && c2.toLower = 'm' then
      some ([c1, c2], rest)
    else none
  | _ => none

/-- The lookahead body `\s*[ap]` (of `(?!\s*[ap])`, `i` flag): does a run of
spaces followed by `a`/`p` (any case) match here? -/
def lookaheadAP (cs : List Char) : Bool :=
  match (takeSpaces cs).2 with
  | c :: _ => c.toLower = 'a' || c.toLower = 'p'
  | [] => false

/-- JS `parseInt` on a (nonempty) string of ASCII digits. -/
def digitsVal (cs : List Char) : Int :=
  cs.foldl (fun acc c => acc * 10 + (Int.ofNat c.toNat - 48)) 0

/-- Pattern 1 of `TIME_PATTERNS`, tried at one position:
`/(\d{1,2}):(\d{2})\s*-\s*(\d{1,2}):(\d{2})(?!\s*[ap])/i`.
Returns the matched text (`match[0]`) and the four captured groups. -/
def p1At (cs : List Char) : Option (List Char × List Char × List Char × List Char × List Char) :=
  match takeDigits12 cs with
  | none => none
  | some (g1, r1) =>
    match r1 with
    | ':' :: r2 =>
      match takeMin2 r2 with
      | none => none
      | some (g2, r3) =>
        let s1 := takeSpaces r3
        match s1.2 with
        | '-' :: r5 =>
          let s2 := takeSpaces r5
          match takeDigits12 s2.2 with
          | none => none
          | some (g3, r7) =>
            match r7 with
            | ':' :: r8 =>
              match takeMin2 r8 with
              | none => none
              | some (g4, r9) =>
                if lookaheadAP r9 then none
                else
                  some (g1 ++ ':' :: g2 ++ s1.1 ++ '-' :: s2.1 ++ g3 ++ ':' :: g4,
                        g1, g2, g3, g4)
            | _ => none
        | _ => none
    | _ => none

/-- Pattern 2 of `TIME_PATTERNS`, tried at one position:
`/(\d{1,2}):(\d{2})\s*(am|pm)\s*-\s*(\d{1,2}):(\d{2})\s*(am|pm)/i`.
Returns the matched text and the six captured groups. -/
def p2At (cs : List Char) :
    Option (List Char × List Char × List Char × List Char × List Char × List Char × List Char) :=
  match takeDigits12 cs with
  | none => none
  | some (g1, r1) =>
    match r1 with
    | ':' :: r2 =>
      match takeMin2 r2 with
      | none => none
      | some (g2, r3) =>
        let s1 := takeSpaces r3
        match takeAmPm s1.2 with
        | none => none
        | some (g3, r4) =>
          let s2 := takeSpaces r4
          match s2.2 with
          | '-' :: r5 =>
            let s3 := takeSpaces r5
            match takeDigits12 s3.2 with
            | none => none
            | some (g4, r6) =>
              match r6 with
              | ':' :: r7 =>
                match takeMin2 r7 with
                | none => none
                | some (g5, r8) =>
                  let s4 := takeSpaces r8
                  match takeAmPm s4.2 with
                  | none => none
                  | some (g6, _) =>
                    some (g1 ++ ':' :: g2 ++ s1.1 ++ g3 ++ s2.1 ++ '-' :: s3.1 ++
                            g4 ++ ':' :: g5 ++ s4.1 ++ g6,
                          g1, g2, g3, g4, g5, g6)
              | _ => none
          | _ => none
    | _ => none

/-- Pattern 3 of `TIME_PATTERNS`, tried at one position:
`/(\d{1,2})\s*(am|pm)\s*-\s*(\d{1,2})\s*(am|pm)/i`.
Returns the matched text and the four captured groups. -/
def p3At (cs : List Char) :
    Option (List Char × List Char × List Char × List Char × List Char) :=
  match takeDigits12 cs with
  | none => none
  | some (g1, r1) =>
    let s1 := takeSpaces r1
    match takeAmPm s1.2 with
    | none => none
    | some (g2, r2) =>
      let s2 := takeSpaces r2
      match s2.2 with
      | '-' :: r3 =>
        let s3 := takeSpaces r3
        match takeDigits12 s3.2 with
        | none => none
        | some (g3, r4) =>
          let s4 := takeSpaces r4
          match takeAmPm s4.2 with
          | none => none
          | some (g4, _) =>
            some (g1 ++ s1.1 ++ g2 ++ s2.1 ++ '-' :: s3.1 ++ g3 ++ s4.1 ++ g4,
                  g1, g2, g3, g4)
      | _ => none

/-- JS leftmost-match search: try an "at this position" matcher at every
position from the left, like `String.prototype.match` with a non-global,
non-anchored regex. -/
def searchAt {α : Type} (m : List Char → Option α) : List Char → Option α
  | [] => m []
  | c :: cs =>
    match m (c :: cs) with
    | some r => some r
    | none => searchAt m cs

/-- JS `String.prototype.toLowerCase`, character by character (the inputs
here are the matched `(am|pm)` groups, all ASCII). -/
def jsToLowerCase (s : String) : String := String.mk (s.toList.map Char.toLower)

/-- `convert12to24` from `src/core/timeParser.ts`. -/
def convert12to24 (hour : Int) (period : String) : Int :=
  let isPM := jsToLowerCase period = "pm"
  if hour = 12 then (if isPM then 12 else 0)
  else if isPM then hour + 12 else hour

/-- `isValidTimeRange` from `src/core/timeParser.ts`. -/
def isValidTimeRange (range : ParsedTimeRange) : Bool :=
  if range.startHour < 0 || range.startHour > 23 ||
      range.endHour < 0 || range.endHour > 23 then false
  else if range.startMinute < 0 || range.startMinute > 59 ||
      range.endMinute < 0 || range.endMinute > 59 then false
  else
    decide (range.endHour * 60 + range.endMinute ≥
            range.startHour * 60 + range.startMinute)

/-- Pattern 1's `parse` callback: build a `ParsedTimeRange` from the groups. -/
def parseFromP1 (r : List Char × List Char × List Char × List Char × List Char) :
    ParsedTimeRange :=
  ⟨digitsVal r.2.1, digitsVal r.2.2.1, digitsVal r.2.2.2.1, digitsVal r.2.2.2.2,
   String.mk r.1⟩

/-- Pattern 2's `parse` callback. -/
def parseFromP2
    (r : List Char × List Char × List Char × List Char × List Char × List Char × List Char) :
    ParsedTimeRange :=
  ⟨convert12to24 (digitsVal r.2.1) (String.mk r.2.2.2.1),
   digitsVal r.2.2.1,
   convert12to24 (digitsVal r.2.2.2.2.1) (String.mk r.2.2.2.2.2.2),
   digitsVal r.2.2.2.2.2.1,
   String.mk r.1⟩

/-- Pattern 3's `parse` callback (minutes are zero). -/
def parseFromP3 (r : List Char × List Char × List Char × List Char × List Char) :
    ParsedTimeRange :=
  ⟨convert12to24 (digitsVal r.2.1) (String.mk r.2.2.1), 0,
   convert12to24 (digitsVal r.2.2.2.1) (String.mk r.2.2.2.2), 0,
   String.mk r.1⟩

/-- The `for (const pattern of TIME_PATTERNS)` loop of `parseTimeRange`:
take the first pattern whose leftmost match validates; a pattern whose
match fails validation falls through to the next pattern. -/
def firstValid : List (Option ParsedTimeRange) → Option ParsedTimeRange
  | [] => none
  | o :: rest =>
    match o with
    | some r => if isValidTimeRange r then some r else firstValid rest
    | none => firstValid rest

/-- `parseTimeRange` from `src/core/timeParser.ts`. -/
def parseTimeRange (text : String) : Option ParsedTimeRange :=
  let cs := text.toList
  firstValid
    [(searchAt p1At cs).map parseFromP1,
     (searchAt p2At cs).map parseFromP2,
     (searchAt p3At cs).map parseFromP3]

/-- JS `Number.prototype.toString` for the integers this code formats. -/
def jsNumToString (n : Int) : String :=
  if n < 0 then "-" ++ String.mk (Nat.toDigits 10 (-n).toNat)
  else String.mk (Nat.toDigits 10 n.toNat)

/-- JS `String.prototype.padStart(2, "0")`. -/
def padStart2 (s : String) : String :=
  if s.length < 2 then String.mk (List.replicate (2 - s.length) '0') ++ s else s

/-- The `pad` helper of `formatTimeRange`. -/
def pad2 (n : Int) : String := padStart2 (jsNumToString n)

/-- `formatTimeRange` from `src/core/timeParser.ts`. -/
def formatTimeRange (startHour startMinute endHour endMinute : Int) : String :=
  pad2 startHour ++ ":" ++ pad2 startMinute ++ "-" ++ pad2 endHour ++ ":" ++ pad2 endMinute

/-- `timeRangeToMinutes` from `src/core/timeParser.ts`. -/
def timeRangeToMinutes (range : ParsedTimeRange) : Int × Int :=
  (range.startHour * 60 + range.startMinute, range.endHour * 60 + range.endMinute)

/-! ### Category resolver (src/core/tagResolver.ts)

`createTagMatcher` compiles a category's tag into the regex
`(#tag(?![\w-])|#\[\[tag\]\]|\[\[tag\]\])` (case-insensitive) where the tag
text is passed through `escapeRegex`, so the tag is matched literally; a
`RegExp.test` call asks whether any position of the text matches one of the
three alternatives. -/

/-- JS `\w` character class. -/
def isWordChar (c : Char) : Bool :=
  (decide ('a' ≤ c) && decide (c ≤ 'z')) || (decide ('A' ≤ c) && decide (c ≤ 'Z')) ||
  (decide ('0' ≤ c) && decide (c ≤ '9')) || c = '_'

/-- Case-insensitive literal match: consume `lit` (case-insensitively) at the
head of the text, returning the rest. -/
def matchLitAt : List Char → List Char → Option (List Char)
  | [], cs => some cs
  | _ :: _, [] => none
  | p :: ps, c :: cs => if p.toLower = c.toLower then matchLitAt ps cs else none

/-- One position of `createTagMatcher`'s regex: does
`#tag(?![\w-])`, `#[[tag]]` or `[[tag]]` match here (case-insensitively)? -/
def tagAltAt (tag : List Char) (cs : List Char) : Bool :=
  (match matchLitAt ('#' :: tag) cs with
   | some rest =>
     match rest with
     | [] => true
     | c :: _ => !(isWordChar c || c = '-')
   | none => false) ||
  (matchLitAt ('#' :: '[' :: '[' :: (tag ++ [']', ']'])) cs).isSome ||
  (matchLitAt ('[' :: '[' :: (tag ++ [']', ']'])) cs).isSome

/-- Does a predicate on positions hold anywhere in the text (including the
empty final position), as JS `RegExp.test` checks every start index? -/
def anyPosition (p : List Char → Bool) : List Char → Bool
  | [] => p []
  | c :: cs => p (c :: cs) || anyPosition p cs

/-- `createTagMatcher` from `src/core/tagResolver.ts`, as a test function:
`escapeRegex` makes `config.tag` a literal, so the compiled regex tests for
one of the three alternatives at some position. -/
def createTagMatcher (config : TagConfig) : String → Bool :=
  fun text => anyPosition (tagAltAt config.tag.toList) text.toList

/-- A compiled matcher list entry `{ config, regex }`. -/
abbrev Matcher := TagConfig × (String → Bool)

/-- `buildTagMatchers` from `src/core/tagResolver.ts`. -/
def buildTagMatchers (configuredTags : List TagConfig) : List Matcher :=
  configuredTags.map (fun config => (config, createTagMatcher config))

/-- `findTagInTextWithMatchers` from `src/core/tagResolver.ts`: first
matcher (in configured order) whose regex accepts the text wins. -/
def findTagInTextWithMatchers (text : String) : List Matcher → Option TagConfig
  | [] => none
  | (config, regex) :: rest =>
    if regex text then some config else findTagInTextWithMatchers text rest

/-- `MAX_PARENT_DEPTH` from `src/core/tagResolver.ts`. -/
def MAX_PARENT_DEPTH : Nat := 50

/-- JS `x || null` for an optional string-valued map lookup: `undefined` and
the empty string are both falsy. -/
def jsOrNull : Option String → Option String
  | some s => if s = "" then none else some s
  | none => none

/-- The per-node body of `findAssociatedTagBatch`'s loop: look up the cached
content (skipping falsy content, i.e. a missing entry or the empty string)
and run the matchers over it. -/
def nodeTag (matchers : List Matcher) (contentMap : String → Option String)
    (uid : String) : Option TagConfig :=
  match contentMap uid with
  | some content =>
    if content = "" then none else findTagInTextWithMatchers content matchers
  | none => none

/-- The `while` loop of `findAssociatedTagBatch`.  The loop guard is
`currentUid && !visited.has(currentUid) && depth < MAX_PARENT_DEPTH`; the
`fuel` argument is the number of remaining iterations
(`MAX_PARENT_DEPTH - depth`). -/
def batchWalk (matchers : List Matcher) (contentMap parentMap : String → Option String) :
    Option String → List String → Nat → Option TagConfig
  | _, _, 0 => none
  | none, _, _ + 1 => none
  | some uid, visited, fuel + 1 =>
    if uid ∈ visited then none
    else
      match nodeTag matchers contentMap uid with
      | some t => some t
      | none =>
        batchWalk matchers contentMap parentMap (jsOrNull (parentMap uid))
          (uid :: visited) fuel

/-- `findAssociatedTagBatch` from `src/core/tagResolver.ts`. -/
def findAssociatedTagBatch (blockUid : String) (matchers : List Matcher)
    (contentMap parentMap : String → Option String) : Option TagConfig :=
  if matchers.isEmpty then none
  else batchWalk matchers contentMap parentMap (some blockUid) [] MAX_PARENT_DEPTH

/-- `createBatchTagResolver` from `src/core/tagResolver.ts`. -/
def createBatchTagResolver (configuredTags : List TagConfig)
    (contentMap parentMap : String → Option String) : String → Option TagConfig :=
  let matchers := buildTagMatchers configuredTags
  fun blockUid => findAssociatedTagBatch blockUid matchers contentMap parentMap

/-! ### Page scanner (src/core/blockScanner.ts)

`scanPageForTimeBlocks` fetches `{ blocks, contentMap, parentMap }` from the
external store (`getBlockHierarchyData`); the embedding takes that snapshot
as parameters.  The `for` loop pushing onto an output array is a
`filterMap`. -/

/-- A raw block of the `getBlockHierarchyData` snapshot. -/
structure RawBlock where
  uid : String
  string : String
  parentUid : String
  order : Int
deriving DecidableEq, Repr

/-- `scanPageForTimeBlocks` from `src/core/blockScanner.ts`, with the store
snapshot supplied as arguments. -/
def scanPageForTimeBlocks (blocks : List RawBlock)
    (contentMap parentMap : String → Option String)
    (configuredTags : List TagConfig) (isNextDay : Bool) (dayBoundaryHour : Int) :
    List TimeBlockData :=
  let resolveTag := createBatchTagResolver configuredTags contentMap parentMap
  blocks.filterMap fun block =>
    match parseTimeRange block.string with
    | none => none
    | some timeRange =>
      if isNextDay && decide (timeRange.startHour ≥ dayBoundaryHour) then none
      else
        let tag := resolveTag block.uid
        if tag.isSome || decide (configuredTags.length = 0) then
          let adjustedTimeRange :=
            if isNextDay then
              { timeRange with
                  startHour := timeRange.startHour + 24,
                  endHour := timeRange.endHour + 24 }
            else timeRange
          some ⟨block.uid, block.string, adjustedTimeRange, tag, block.parentUid, block.order⟩
        else none

/-! ### Overlap column layout (src/ui/TimeGrid.tsx, `calculateBlockLayouts`) -/

/-- `block.timeRange.startHour * 60 + block.timeRange.startMinute`. -/
def startM (b : TimeBlockData) : Int :=
  b.timeRange.startHour * 60 + b.timeRange.startMinute

/-- `block.timeRange.endHour * 60 + block.timeRange.endMinute`. -/
def endM (b : TimeBlockData) : Int :=
  b.timeRange.endHour * 60 + b.timeRange.endMinute

/-- The sort comparator of `calculateBlockLayouts` as a total boolean order:
`a` may precede `b` iff the comparator is `≤ 0`, i.e. start ascending and,
on equal starts, end descending.  JS `Array.prototype.sort` is stable, as is
`List.mergeSort`. -/
def blockLE (a b : TimeBlockData) : Bool :=
  decide (startM a < startM b) ||
  (decide (startM a = startM b) && decide (endM b ≤ endM a))

/-- The inner `for (let i = 0; i < columns.length; i++)` scan: index of the
first column whose frontier is `≤ start`. -/
def findCol : List Int → Int → Option Nat
  | [], _ => none
  | c :: cs, s => if c ≤ s then some 0 else (findCol cs s).map (· + 1)

/-- JS `Map.prototype.set` on an association list: overwrite in place if the
key exists, else append (JS maps preserve insertion order). -/
def mapSet (m : List (String × Nat)) (k : String) (v : Nat) : List (String × Nat) :=
  if m.any (fun p => p.1 = k) then
    m.map (fun p => if p.1 = k then (k, v) else p)
  else m ++ [(k, v)]

/-- JS `Map.prototype.get` on an association list. -/
def mapGet (m : List (String × Nat)) (k : String) : Option Nat :=
  (m.find? (fun p => p.1 = k)).map (·.2)

/-- The first `for (const block of sorted)` loop of `calculateBlockLayouts`:
greedy column assignment, carrying the column frontier list and the
`layouts` map keyed by uid. -/
def assignLoop : List TimeBlockData → List Int → List (String × Nat) → List (String × Nat)
  | [], _, m => m
  | b :: rest, columns, m =>
    match findCol columns (startM b) with
    | some i => assignLoop rest (columns.set i (endM b)) (mapSet m b.uid i)
    | none => assignLoop rest (columns ++ [endM b]) (mapSet m b.uid columns.length)

/-- `BlockLayout` from `src/ui/TimeGrid.tsx`. -/
structure BlockLayout where
  block : TimeBlockData
  column : Nat
  totalColumns : Nat
deriving DecidableEq, Repr

/-- The second `for (const block of sorted)` loop of `calculateBlockLayouts`:
`totalColumns` is one more than the maximum column among the block itself
and every other (by uid) block whose `[start, end)` range overlaps it.
The `layouts.get(...)!` non-null assertions are modelled with `getD 0`. -/
def totalLoop (sorted : List TimeBlockData) (m : List (String × Nat)) : List BlockLayout :=
  sorted.map fun b =>
    let col := (mapGet m b.uid).getD 0
    let maxCol := sorted.foldl
      (fun acc other =>
        if other.uid = b.uid then acc
        else if decide (startM b < endM other) && decide (endM b > startM other) then
          max acc ((mapGet m other.uid).getD 0)
        else acc)
      col
    ⟨b, col, maxCol + 1⟩

/-- `calculateBlockLayouts` from `src/ui/TimeGrid.tsx`. -/
def calculateBlockLayouts (blocks : List TimeBlockData) : List BlockLayout :=
  if blocks.length = 0 then []
  else
    let sorted := blocks.mergeSort blockLE
    totalLoop sorted (assignLoop sorted [] [])

/-! ### Auxiliary definitions for the proofs -/

/-- The ids visited by `findAssociatedTagBatch`'s loop, in visiting order:
the record itself first, then successive parents. -/
def walkUids (parentMap : String → Option String) :
    Option String → List String → Nat → List String
  | _, _, 0 => []
  | none, _, _ + 1 => []
  | some uid, visited, fuel + 1 =>
    if uid ∈ visited then []
    else uid :: walkUids parentMap (jsOrNull (parentMap uid)) (uid :: visited) fuel

/-- The first assignment loop of `calculateBlockLayouts`, with each block
paired positionally with its assigned column (instead of through the
uid-keyed map); equal to the map-based loop whenever uids are distinct. -/
def assignCols : List TimeBlockData → List Int → List (TimeBlockData × Nat)
  | [], _ => []
  | b :: rest, columns =>
    match findCol columns (startM b) with
    | some i => (b, i) :: assignCols rest (columns.set i (endM b))
    | none => (b, columns.length) :: assignCols rest (columns ++ [endM b])

/-- The directly-overlapping-columns maximum computed by the second loop of
`calculateBlockLayouts`, over positional pairs. -/
def directMax (ps : List (TimeBlockData × Nat)) (b : TimeBlockData) (col : Nat) : Nat :=
  ps.foldl
    (fun acc q =>
      if q.1.uid = b.uid then acc
      else if decide (startM b < endM q.1) && decide (endM b > startM q.1) then
        max acc q.2
      else acc)
    col

/-- The positional pairs assigned to column `i`, in assignment order. -/
def occupants (ps : List (TimeBlockData × Nat)) (i : Nat) : List (TimeBlockData × Nat) :=
  ps.filter (fun p => decide (p.2 = i))

/-- The (block, column) pairs `calculateBlockLayouts` produces, positionally. -/
def layoutPairs (blocks : List TimeBlockData) : List (TimeBlockData × Nat) :=
  assignCols (blocks.mergeSort blockLE) []

/-- The half-open ranges `[start, end)` of two blocks intersect. -/
def overlaps (a b : TimeBlockData) : Prop :=
  startM a < endM b ∧ startM b < endM a

instance (a b : TimeBlockData) : Decidable (overlaps a b) := by
  unfold overlaps; infer_instance

/-- One step of the reflexive-transitive closure of `overlaps` inside a
fixed block list: adjoin every block overlapping the group. -/
def overlapClosureStep (all g : List TimeBlockData) : List TimeBlockData :=
  g ++ all.filter
    (fun b => !g.any (fun a => a.uid = b.uid) && g.any (fun a => decide (overlaps a b)))

/-- The transitive overlap group of `b` inside `all` (the claimed "maximal
set connected by pairwise time overlap"), reached by iterating the closure
step `all.length` times. -/
def overlapGroup (all : List TimeBlockData) (b : TimeBlockData) : List TimeBlockData :=
  (overlapClosureStep all)^[all.length] [b]

/-- One more than the maximum column that `calculateBlockLayouts` assigns to
any member of `b`'s transitive overlap group — the value the claim asserts
`totalColumns` to be. -/
def transGroupSpan (blocks : List TimeBlockData) (b : TimeBlockData) : Nat :=
  let layouts := calculateBlockLayouts blocks
  let g := overlapGroup blocks b
  1 + layouts.foldl
    (fun acc l => if g.any (fun a => a.uid = l.block.uid) then max acc l.column else acc) 0

/-- One more than the maximum among a layout entry's own column and the
columns of entries whose block directly overlaps it. -/
def directSpan (layouts : List BlockLayout) (l : BlockLayout) : Nat :=
  1 + ((layouts.filter
        (fun l2 => !(l2.block.uid = l.block.uid : Bool) && decide (overlaps l.block l2.block))).map
      BlockLayout.column).foldl max l.column

/-- The sort key described by the spec: start ascending, ties broken by
longer duration first. -/
def specLE (a b : TimeBlockData) : Bool :=
  decide (startM a < startM b) ||
  (decide (startM a = startM b) && decide (endM b - startM b ≤ endM a - startM a))

/-- The column-assignment stage as the spec words it: stable-sort by
`specLE`, then greedily place each block in the first column whose frontier
is at most its start, opening a new column otherwise. -/
def specAssignment (blocks : List TimeBlockData) : List (TimeBlockData × Nat) :=
  assignCols (blocks.mergeSort specLE) []

/-- A parsed range shifted by +1440 minutes, expressed on total minutes as
the spec words it. -/
def shift1440 (r : ParsedTimeRange) : ParsedTimeRange :=
  let s := (timeRangeToMinutes r).1 + 1440
  let e := (timeRangeToMinutes r).2 + 1440
  { r with startHour := s / 60, startMinute := s % 60, endHour := e / 60, endMinute := e % 60 }

/-- The orchestrated scan as the spec words it: keep a record iff it parses,
its category resolves whenever at least one category is configured, and (in
a next-day scope) it starts before the boundary hour; a surviving next-day
record's interval is shifted by +1440 minutes. -/
def specScanPage (blocks : List RawBlock) (contentMap parentMap : String → Option String)
    (configuredTags : List TagConfig) (isNextDay : Bool) (dayBoundaryHour : Int) :
    List TimeBlockData :=
  blocks.filterMap fun block =>
    match parseTimeRange block.string with
    | none => none
    | some timeRange =>
      let category :=
        findAssociatedTagBatch block.uid (buildTagMatchers configuredTags) contentMap parentMap
      if configuredTags ≠ [] ∧ category = none then none
      else if isNextDay = true ∧ timeRange.startHour ≥ dayBoundaryHour then none
      else
        some ⟨block.uid, block.string, (if isNextDay then shift1440 timeRange else timeRange),
              category, block.parentUid, block.order⟩

/-- The tens digit character of a two-digit decimal rendering. -/
def dTens (n : Int) : Char := Char.ofNat (48 + n.toNat / 10)

/-- The ones digit character of a two-digit decimal rendering. -/
def dOnes (n : Int) : Char := Char.ofNat (48 + n.toNat % 10)

/-! ### Concrete fixtures used by witnesses and counterexamples -/

/-- A block with only uid and time range relevant. -/
def blockOf (uid : String) (sh sm eh em : Int) : TimeBlockData :=
  ⟨uid, "", ⟨sh, sm, eh, em, ""⟩, none, "", 0⟩

/-- Fixture A:[0,60]. -/
def fixA : TimeBlockData := blockOf "A" 0 0 1 0
/-- Fixture B:[30,90]. -/
def fixB : TimeBlockData := blockOf "B" 0 30 1 30
/-- Fixture C:[100,120]. -/
def fixC : TimeBlockData := blockOf "C" 1 40 2 0
/-- Tie fixture A:[0,90]. -/
def tieA : TimeBlockData := blockOf "A" 0 0 1 30
/-- Tie fixture B:[0,30]. -/
def tieB : TimeBlockData := blockOf "B" 0 0 0 30

/-- Counterexample input for the transitive-group claim:
P:[0,90] column 0, Q:[0,30] column 1, R:[0,30] column 2, S:[40,60] column 1.
S overlaps only P directly (columns 0 and 1), but R sits in its transitive
overlap group with column 2. -/
def groupEx : List TimeBlockData :=
  [blockOf "P" 0 0 1 30, blockOf "Q" 0 0 0 30, blockOf "R" 0 0 0 30,
   blockOf "S" 0 40 1 0]

/-- Identical interval, uid X. -/
def twinX : TimeBlockData := blockOf "X" 0 0 1 0
/-- Identical interval, uid Y. -/
def twinY : TimeBlockData := blockOf "Y" 0 0 1 0

/-- Category `#work`. -/
def workC : TagConfig := ⟨"work", "#ff0000", false⟩
/-- Category `#personal`. -/
def persC : TagConfig := ⟨"personal", "#00ff00", false⟩

/-- Content map for the resolver chain example: a record whose parent holds
`#work` and whose grandparent holds `#personal`. -/
def cmEx : String → Option String := fun u =>
  if u = "record" then some "09:00-10:00 task"
  else if u = "parent" then some "stuff #work"
  else if u = "grandparent" then some "stuff #personal"
  else none

/-- Parent map for the resolver chain example. -/
def pmEx : String → Option String := fun u =>
  if u = "record" then some "parent"
  else if u = "parent" then some "grandparent"
  else none

/-- Synthetic uid of node `i` in the deep-chain example. -/
def uidOf (i : Nat) : String := "n" ++ toString i

/-- Parent map of a 60-deep ancestor chain `n0 → n1 → ⋯ → n60`. -/
def pmChain : String → Option String := fun u =>
  (((List.range 60).map (fun i => (uidOf i, uidOf (i + 1)))).find?
      (fun p => p.1 = u)).map (·.2)

/-- Content map of the deep chain: only ancestor 55 matches `#work`. -/
def cmChain : String → Option String := fun u =>
  if u = uidOf 55 then some "#work" else some "filler"

/-- Parent map with a two-node cycle. -/
def pmCyc : String → Option String := fun u =>
  if u = "x" then some "y" else if u = "y" then some "x" else none

/-! ## Resolver lemmas -/

theorem findTagInTextWithMatchers_mem {text : String} {ms : List Matcher} {c : TagConfig}
    (h : findTagInTextWithMatchers text ms = some c) : ∃ f, (c, f) ∈ ms := by
  induction ms with
  | nil => simp [findTagInTextWithMatchers] at h
  | cons m rest ih =>
    obtain ⟨cfg, f⟩ := m
    rw [findTagInTextWithMatchers] at h
    split at h
    · exact ⟨f, by simp [← Option.some.injEq _ _ ▸ h, (Option.some.inj h).symm]⟩
    · obtain ⟨f2, hf2⟩ := ih h
      exact ⟨f2, List.mem_cons_of_mem _ hf2⟩

theorem nodeTag_mem {ms : List Matcher} {cm : String → Option String} {uid : String}
    {c : TagConfig} (h : nodeTag ms cm uid = some c) : ∃ f, (c, f) ∈ ms := by
  unfold nodeTag at h
  split at h
  · split at h
    · exact absurd h (by simp)
    · exact findTagInTextWithMatchers_mem h
  · exact absurd h (by simp)

theorem nodeTag_nil (cm : String → Option String) (uid : String) :
    nodeTag [] cm uid = none := by
  unfold nodeTag
  split
  · split <;> rfl
  · rfl

theorem batchWalk_mem {ms : List Matcher} {cm pm : String → Option String} {c : TagConfig} :
    ∀ (fuel : Nat) (cur : Option String) (vis : List String),
      batchWalk ms cm pm cur vis fuel = some c → ∃ f, (c, f) ∈ ms := by
  intro fuel
  induction fuel with
  | zero => intro cur vis h; exact absurd h (by cases cur <;> simp [batchWalk])
  | succ n ih =>
    intro cur vis h
    cases cur with
    | none => exact absurd h (by simp [batchWalk])
    | some uid =>
      rw [batchWalk] at h
      split at h
      · exact absurd h (by simp)
      · rcases hn : nodeTag ms cm uid with _ | t
        · rw [hn] at h
          exact ih _ _ h
        · rw [hn] at h
          exact (Option.some.inj h) ▸ nodeTag_mem hn

/-- The loop of `findAssociatedTagBatch` returns the first match along the
visited chain. -/
theorem batchWalk_eq_findSome (ms : List Matcher) (cm pm : String → Option String) :
    ∀ (fuel : Nat) (cur : Option String) (vis : List String),
      batchWalk ms cm pm cur vis fuel =
        (walkUids pm cur vis fuel).findSome? (nodeTag ms cm) := by
  intro fuel
  induction fuel with
  | zero => intro cur vis; cases cur <;> simp [batchWalk, walkUids]
  | succ n ih =>
    intro cur vis
    cases cur with
    | none => simp [batchWalk, walkUids]
    | some uid =>
      rw [batchWalk, walkUids]
      split
      · simp
      · rw [List.findSome?_cons]
        rcases hn : nodeTag ms cm uid with _ | t
        · exact ih _ _
        · rfl

theorem findSome?_nodeTag_nil (cm : String → Option String) :
    ∀ l : List String, l.findSome? (nodeTag [] cm) = none := by
  intro l
  induction l with
  | nil => rfl
  | cons u us ih => rw [List.findSome?_cons, nodeTag_nil]; exact ih

theorem findAssociatedTagBatch_eq_findSome (blockUid : String) (ms : List Matcher)
    (cm pm : String → Option String) :
    findAssociatedTagBatch blockUid ms cm pm =
      (walkUids pm (some blockUid) [] MAX_PARENT_DEPTH).findSome? (nodeTag ms cm) := by
  unfold findAssociatedTagBatch
  split
  · rename_i hms
    rw [List.isEmpty_iff] at hms
    subst hms
    exact (findSome?_nodeTag_nil cm _).symm
  · exact batchWalk_eq_findSome ms cm pm MAX_PARENT_DEPTH (some blockUid) []

/-- C5: category resolution walks the chain starting at the record itself,
testing each node's text against every matcher in configured order (first
match wins) before moving to the parent, so a nearer ancestor always takes
precedence over a farther one regardless of the configured category order;
with the chain record → parent(#work) → grandparent(#personal) and both
categories configured in either order, resolving the record returns the
`#work` category. -/
theorem claim5_resolver_nearest_match :
    (∀ (matchers : List Matcher) (contentMap parentMap : String → Option String)
        (blockUid : String),
      findAssociatedTagBatch blockUid matchers contentMap parentMap =
        (walkUids parentMap (some blockUid) [] MAX_PARENT_DEPTH).findSome?
          (nodeTag matchers contentMap)) ∧
    walkUids pmEx (some "record") [] MAX_PARENT_DEPTH =
      ["record", "parent", "grandparent"] ∧
    findAssociatedTagBatch "record" (buildTagMatchers [workC, persC]) cmEx pmEx =
      some workC ∧
    findAssociatedTagBatch "record" (buildTagMatchers [persC, workC]) cmEx pmEx =
      some workC :=
  ⟨fun ms cm pm uid => findAssociatedTagBatch_eq_findSome uid ms cm pm,
   by decide, by decide, by decide⟩

/-- C6: category resolution is total and returns `none` when the ancestor
walk is exhausted: a synthetic 60-deep chain whose only matching content
sits on ancestor 55 (beyond the 50-hop bound) resolves to `none` even
though node 55 itself would match, a cyclic parent structure resolves to
`none`, and in general the resolver yields either `none` or one of the
configured categories. -/
theorem claim6_resolver_exhaustion :
    findAssociatedTagBatch (uidOf 0) (buildTagMatchers [workC]) cmChain pmChain = none ∧
    nodeTag (buildTagMatchers [workC]) cmChain (uidOf 55) = some workC ∧
    findAssociatedTagBatch "x" (buildTagMatchers [workC]) (fun _ => some "filler") pmCyc
      = none ∧
    (∀ (matchers : List Matcher) (contentMap parentMap : String → Option String)
        (blockUid : String),
      findAssociatedTagBatch blockUid matchers contentMap parentMap = none ∨
      ∃ c, (∃ f, (c, f) ∈ matchers) ∧
        findAssociatedTagBatch blockUid matchers contentMap parentMap = some c) := by
  refine ⟨by decide, by decide, by decide, ?_⟩
  intro ms cm pm uid
  rcases h : findAssociatedTagBatch uid ms cm pm with _ | c
  · exact Or.inl rfl
  · refine Or.inr ⟨c, ?_, rfl⟩
    unfold findAssociatedTagBatch at h
    split at h
    · exact absurd h (by simp)
    · exact batchWalk_mem _ _ _ h

/-! ## Parser lemmas -/

theorem firstValid_valid : ∀ (os : List (Option ParsedTimeRange)) (r : ParsedTimeRange),
    firstValid os = some r → isValidTimeRange r = true := by
  intro os
  induction os with
  | nil => intro r h; exact absurd h (by simp [firstValid])
  | cons o rest ih =>
    intro r h
    rcases o with _ | r2
    · rw [firstValid] at h
      exact ih r h
    · rw [firstValid] at h
      by_cases hv : isValidTimeRange r2 = true
      · simp only [hv, if_true] at h
        exact (Option.some.inj h) ▸ hv
      · simp only [Bool.not_eq_true] at hv
        simp only [hv, Bool.false_eq_true, if_false] at h
        exact ih r h

/-- Any range `parseTimeRange` returns passed `isValidTimeRange`. -/
theorem parseTimeRange_valid {text : String} {r : ParsedTimeRange}
    (h : parseTimeRange text = some r) : isValidTimeRange r = true :=
  firstValid_valid _ r h

/-- The bounds `isValidTimeRange` enforces, spelled out. -/
theorem isValidTimeRange_bounds {r : ParsedTimeRange} (h : isValidTimeRange r = true) :
    0 ≤ r.startHour ∧ r.startHour ≤ 23 ∧ 0 ≤ r.endHour ∧ r.endHour ≤ 23 ∧
    0 ≤ r.startMinute ∧ r.startMinute ≤ 59 ∧ 0 ≤ r.endMinute ∧ r.endMinute ≤ 59 ∧
    r.startHour * 60 + r.startMinute ≤ r.endHour * 60 + r.endMinute := by
  unfold isValidTimeRange at h
  split at h
  · exact absurd h (by simp)
  · split at h
    · exact absurd h (by simp)
    · rename_i h1 h2
      simp only [Bool.or_eq_true, decide_eq_true_eq, not_or] at h1 h2
      simp only [decide_eq_true_eq, ge_iff_le] at h
      omega

/-- C9: the parser returns `some` only for ranges passing validation — all
hours in `[0,23]`, minutes in `[0,59]`, end not before start — so every
input whose pattern matches fail validation yields `null`; concretely
`"25:00-26:00"` and `"10:70-11:00"` yield `null` while the zero-duration
`"10:00-10:00"` is accepted. -/
theorem claim9_invalid_rejection :
    (∀ (text : String) (r : ParsedTimeRange), parseTimeRange text = some r →
      0 ≤ r.startHour ∧ r.startHour ≤ 23 ∧ 0 ≤ r.endHour ∧ r.endHour ≤ 23 ∧
      0 ≤ r.startMinute ∧ r.startMinute ≤ 59 ∧ 0 ≤ r.endMinute ∧ r.endMinute ≤ 59 ∧
      r.startHour * 60 + r.startMinute ≤ r.endHour * 60 + r.endMinute) ∧
    parseTimeRange "25:00-26:00" = none ∧
    parseTimeRange "10:70-11:00" = none ∧
    parseTimeRange "10:00-10:00" = some ⟨10, 0, 10, 0, "10:00-10:00"⟩ :=
  ⟨fun _ _ h => isValidTimeRange_bounds (parseTimeRange_valid h),
   by decide, by decide, by decide⟩

/-- Witness for C9's universally quantified part at the concrete input
`"10:00-10:00"`. -/
theorem claim9_invalid_rejection_witness :
    0 ≤ (10 : Int) ∧ (10 : Int) ≤ 23 ∧ 0 ≤ (10 : Int) ∧ (10 : Int) ≤ 23 ∧
    0 ≤ (0 : Int) ∧ (0 : Int) ≤ 59 ∧ 0 ≤ (0 : Int) ∧ (0 : Int) ≤ 59 ∧
    (10 : Int) * 60 + 0 ≤ (10 : Int) * 60 + 0 :=
  claim9_invalid_rejection.1 "10:00-10:00" ⟨10, 0, 10, 0, "10:00-10:00"⟩ (by decide)

/-! ## Layout lemmas -/

theorem blockLE_trans : ∀ a b c : TimeBlockData, blockLE a b → blockLE b c → blockLE a c := by
  intro a b c hab hbc
  simp only [blockLE, Bool.or_eq_true, Bool.and_eq_true, decide_eq_true_eq] at hab hbc ⊢
  omega

theorem blockLE_total : ∀ a b : TimeBlockData, blockLE a b || blockLE b a := by
  intro a b
  simp only [blockLE, Bool.or_eq_true, Bool.and_eq_true, decide_eq_true_eq]
  omega

theorem blockLE_start_le {a b : TimeBlockData} (h : blockLE a b) : startM a ≤ startM b := by
  simp only [blockLE, Bool.or_eq_true, Bool.and_eq_true, decide_eq_true_eq] at h
  omega

theorem assignCols_map_fst : ∀ (l : List TimeBlockData) (columns : List Int),
    (assignCols l columns).map Prod.fst = l := by
  intro l
  induction l with
  | nil => intro columns; rfl
  | cons b rest ih =>
    intro columns
    cases hfc : findCol columns (startM b) with
    | some i => rw [assignCols, hfc]; simp [ih]
    | none => rw [assignCols, hfc]; simp [ih]

theorem findCol_le : ∀ (cs : List Int) (s : Int) (i : Nat), findCol cs s = some i →
    ∃ c, cs[i]? = some c ∧ c ≤ s := by
  intro cs
  induction cs with
  | nil => intro s i h; exact absurd h (by simp [findCol])
  | cons c cs ih =>
    intro s i h
    rw [findCol] at h
    split at h
    · rename_i hc
      cases h
      exact ⟨c, by simp, hc⟩
    · cases hmap : findCol cs s with
      | none => rw [hmap] at h; exact absurd h (by simp)
      | some j =>
        rw [hmap] at h
        simp only [Option.map_some'] at h
        cases h
        obtain ⟨c2, hc2, hle⟩ := ih s j hmap
        exact ⟨c2, by simpa using hc2, hle⟩

/-- Core invariant of the greedy assignment: within one column, the blocks
appear chained end-before-start, and the head of a column's occupant list
starts no earlier than that column's incoming frontier. -/
theorem assignCols_chain : ∀ (l : List TimeBlockData) (columns : List Int) (i : Nat),
    List.Chain' (fun p q : TimeBlockData × Nat => endM p.1 ≤ startM q.1)
      (occupants (assignCols l columns) i) ∧
    ∀ p, (occupants (assignCols l columns) i).head? = some p →
      ∀ c, columns[i]? = some c → c ≤ startM p.1 := by
  intro l
  induction l with
  | nil =>
    intro columns i
    exact ⟨List.chain'_nil, fun p hp => absurd hp (by simp [occupants, assignCols])⟩
  | cons b rest ih =>
    intro columns i
    cases hfc : findCol columns (startM b) with
    | some j =>
      obtain ⟨c0, hc0, hc0le⟩ := findCol_le columns (startM b) j hfc
      have hjlen : j < columns.length := by
        rcases List.getElem?_eq_some.mp hc0 with ⟨hlt, _⟩
        exact hlt
      rw [assignCols, hfc]
      by_cases hji : j = i
      · subst hji
        have hocc : occupants ((b, j) :: assignCols rest (columns.set j (endM b))) j =
            (b, j) :: occupants (assignCols rest (columns.set j (endM b))) j := by
          simp [occupants, List.filter_cons]
        rw [hocc]
        obtain ⟨ihc, ihh⟩ := ih (columns.set j (endM b)) j
        constructor
        · rw [List.chain'_cons']
          refine ⟨?_, ihc⟩
          intro q hq
          refine ihh q hq (endM b) ?_
          rw [List.getElem?_set_self hjlen]
        · intro p hp c hc
          simp only [List.head?_cons, Option.some.injEq] at hp
          subst hp
          rw [hc0] at hc
          cases hc
          exact hc0le
      · have hocc : occupants ((b, j) :: assignCols rest (columns.set j (endM b))) i =
            occupants (assignCols rest (columns.set j (endM b))) i := by
          simp [occupants, List.filter_cons, hji]
        rw [hocc]
        obtain ⟨ihc, ihh⟩ := ih (columns.set j (endM b)) i
        refine ⟨ihc, ?_⟩
        intro p hp c hc
        refine ihh p hp c ?_
        rw [List.getElem?_set_ne hji]
        exact hc
    | none =>
      rw [assignCols, hfc]
      by_cases hli : columns.length = i
      · subst hli
        have hocc : occupants ((b, columns.length) :: assignCols rest (columns ++ [endM b]))
            columns.length =
            (b, columns.length) ::
              occupants (assignCols rest (columns ++ [endM b])) columns.length := by
          simp [occupants, List.filter_cons]
        rw [hocc]
        obtain ⟨ihc, ihh⟩ := ih (columns ++ [endM b]) columns.length
        constructor
        · rw [List.chain'_cons']
          refine ⟨?_, ihc⟩
          intro q hq
          refine ihh q hq (endM b) ?_
          exact List.getElem?_concat_length columns (endM b)
        · intro p hp c hc
          rw [List.getElem?_eq_none (Nat.le_refl _)] at hc
          cases hc
      · have hocc : occupants ((b, columns.length) :: assignCols rest (columns ++ [endM b])) i =
            occupants (assignCols rest (columns ++ [endM b])) i := by
          simp [occupants, List.filter_cons, hli]
        rw [hocc]
        obtain ⟨ihc, ihh⟩ := ih (columns ++ [endM b]) i
        refine ⟨ihc, ?_⟩
        intro p hp c hc
        have hilen : i < columns.length := by
          rcases List.getElem?_eq_some.mp hc with ⟨hlt, _⟩
          exact hlt
        refine ihh p hp c ?_
        rw [List.getElem?_append_left hilen]
        exact hc

/-- An end-before-next-start chain whose starts are sorted is pairwise
end-before-start. -/
theorem chain_and_sorted_pairwise :
    ∀ ps : List (TimeBlockData × Nat),
      List.Chain' (fun p q => endM p.1 ≤ startM q.1) ps →
      List.Pairwise (fun p q => startM p.1 ≤ startM q.1) ps →
      List.Pairwise (fun p q => endM p.1 ≤ startM q.1) ps := by
  intro ps
  induction ps with
  | nil => intro _ _; exact List.Pairwise.nil
  | cons p t ih =>
    intro hc hp
    rw [List.chain'_cons'] at hc
    rw [List.pairwise_cons] at hp ⊢
    refine ⟨?_, ih hc.2 hp.2⟩
    intro q hq
    cases t with
    | nil => cases hq
    | cons r t2 =>
      have h1 : endM p.1 ≤ startM r.1 := hc.1 r rfl
      rcases List.mem_cons.mp hq with hq | hq
      · subst hq; exact h1
      · have h2 : startM r.1 ≤ startM q.1 := (List.pairwise_cons.mp hp.2).1 q hq
        omega

theorem foldl_congr_mem {α β : Type} {f g : β → α → β} :
    ∀ (l : List α) (a : β), (∀ x ∈ l, ∀ acc, f acc x = g acc x) →
      l.foldl f a = l.foldl g a := by
  intro l
  induction l with
  | nil => intro a _; rfl
  | cons x t ih =>
    intro a h
    rw [List.foldl_cons, List.foldl_cons, h x (by simp)]
    exact ih _ (fun y hy acc => h y (by simp [hy]) acc)

theorem mapSet_of_not_mem {m : List (String × Nat)} {k : String} (h : ∀ p ∈ m, p.1 ≠ k)
    (v : Nat) : mapSet m k v = m ++ [(k, v)] := by
  unfold mapSet
  rw [if_neg]
  intro hany
  rw [List.any_eq_true] at hany
  obtain ⟨p, hp, hpk⟩ := hany
  exact h p hp (of_decide_eq_true hpk)

theorem mapGet_eq_of_mem : ∀ (m : List (String × Nat)), (m.map Prod.fst).Nodup →
    ∀ {k : String} {v : Nat}, (k, v) ∈ m → mapGet m k = some v := by
  intro m
  induction m with
  | nil => intro _ k v h; cases h
  | cons hd t ih =>
    intro hn k v hm
    obtain ⟨p1, p2⟩ := hd
    rw [List.map_cons, List.nodup_cons] at hn
    unfold mapGet
    by_cases hk : p1 = k
    · subst hk
      rw [List.find?_cons_of_pos _ (by simp)]
      rcases List.mem_cons.mp hm with he | ht
      · cases he; rfl
      · exact absurd (List.mem_map_of_mem Prod.fst ht) (by simpa using hn.1)
    · rw [List.find?_cons_of_neg _ (by simp [hk])]
      rcases List.mem_cons.mp hm with he | ht
      · cases he; exact absurd rfl hk
      · exact ih hn.2 ht

theorem assignLoop_eq : ∀ (l : List TimeBlockData) (columns : List Int)
    (m : List (String × Nat)),
    (∀ b ∈ l, ∀ p ∈ m, p.1 ≠ b.uid) → (l.map TimeBlockData.uid).Nodup →
    assignLoop l columns m = m ++ (assignCols l columns).map (fun p => (p.1.uid, p.2)) := by
  intro l
  induction l with
  | nil => intro columns m _ _; simp [assignLoop, assignCols]
  | cons b rest ih =>
    intro columns m hdisj hnd
    rw [List.map_cons, List.nodup_cons] at hnd
    have hdisj2 : ∀ (v : Nat), ∀ b2 ∈ rest, ∀ p ∈ m ++ [(b.uid, v)], p.1 ≠ b2.uid := by
      intro v b2 hb2 p hp
      rcases List.mem_append.mp hp with h | h
      · exact hdisj b2 (List.mem_cons_of_mem _ hb2) p h
      · have hpv : p = (b.uid, v) := by simpa using h
        subst hpv
        intro hcontra
        have hmem : b.uid ∈ rest.map TimeBlockData.uid := by
          rw [show ((b.uid, v) : String × Nat).1 = b.uid from rfl] at hcontra
          rw [hcontra]
          exact List.mem_map_of_mem TimeBlockData.uid hb2
        exact hnd.1 hmem
    cases hfc : findCol columns (startM b) with
    | some i =>
      simp only [assignLoop, assignCols, hfc]
      rw [mapSet_of_not_mem (fun p hp => hdisj b (List.mem_cons_self b rest) p hp) i]
      rw [ih _ _ (hdisj2 i) hnd.2]
      simp
    | none =>
      simp only [assignLoop, assignCols, hfc]
      rw [mapSet_of_not_mem (fun p hp => hdisj b (List.mem_cons_self b rest) p hp)
        columns.length]
      rw [ih _ _ (hdisj2 columns.length) hnd.2]
      simp

/-- The second pass over a block list given positionally, when the map
agrees with the positional columns. -/
theorem totalLoop_eq (ps : List (TimeBlockData × Nat)) (m : List (String × Nat))
    (hget : ∀ p ∈ ps, mapGet m p.1.uid = some p.2) :
    totalLoop (ps.map Prod.fst) m =
      ps.map (fun p => ⟨p.1, p.2, directMax ps p.1 p.2 + 1⟩) := by
  unfold totalLoop
  rw [List.map_map]
  refine List.map_congr_left ?_
  intro p hp
  simp only [Function.comp]
  rw [hget p hp]
  simp only [Option.getD_some]
  rw [List.foldl_map]
  rw [foldl_congr_mem ps p.2 ?_]
  · rfl
  · intro q hq acc
    by_cases hu : q.1.uid = p.1.uid
    · simp [hu]
    · simp only [hu, if_false]
      by_cases hov : (decide (startM p.1 < endM q.1) && decide (endM p.1 > startM q.1)) = true
      · simp only [hov, if_true]
        rw [hget q hq]
        rfl
      · simp only [Bool.not_eq_true] at hov
        simp [hov]

/-- Under distinct uids, the map-based layout equals the positional pairs
decorated with the direct-overlap column maximum. -/
theorem calculateBlockLayouts_eq (blocks : List TimeBlockData)
    (hnd : (blocks.map TimeBlockData.uid).Nodup) :
    calculateBlockLayouts blocks =
      (layoutPairs blocks).map
        (fun p => ⟨p.1, p.2, directMax (layoutPairs blocks) p.1 p.2 + 1⟩) := by
  unfold calculateBlockLayouts
  split
  · rename_i hlen
    have hb : blocks = [] := List.length_eq_zero.mp hlen
    subst hb
    simp [layoutPairs, assignCols]
  · have hperm : List.Perm (blocks.mergeSort blockLE) blocks :=
      List.mergeSort_perm blocks blockLE
    have hnds : ((blocks.mergeSort blockLE).map TimeBlockData.uid).Nodup :=
      ((hperm.map TimeBlockData.uid).nodup_iff).mpr hnd
    have hfst : (layoutPairs blocks).map Prod.fst = blocks.mergeSort blockLE :=
      assignCols_map_fst _ _
    have hm : assignLoop (blocks.mergeSort blockLE) [] [] =
        (layoutPairs blocks).map (fun p => (p.1.uid, p.2)) := by
      have h := assignLoop_eq (blocks.mergeSort blockLE) [] []
        (fun _ _ p hp => absurd hp (List.not_mem_nil p)) hnds
      simpa [layoutPairs] using h
    have hkeys : (((layoutPairs blocks).map (fun p => (p.1.uid, p.2))).map Prod.fst).Nodup := by
      have : ((layoutPairs blocks).map (fun p => (p.1.uid, p.2))).map Prod.fst =
          ((layoutPairs blocks).map Prod.fst).map TimeBlockData.uid := by
        rw [List.map_map, List.map_map]
        rfl
      rw [this, hfst]
      exact hnds
    have hget : ∀ p ∈ layoutPairs blocks,
        mapGet (assignLoop (blocks.mergeSort blockLE) [] []) p.1.uid = some p.2 := by
      intro p hp
      rw [hm]
      exact mapGet_eq_of_mem _ hkeys (List.mem_map_of_mem _ hp)
    have hmain := totalLoop_eq (layoutPairs blocks)
      (assignLoop (blocks.mergeSort blockLE) [] []) hget
    rw [hfst] at hmain
    exact hmain

/-- Two distinct positional pairs in the same column never overlap. -/
theorem layoutPairs_no_overlap (blocks : List TimeBlockData) :
    ∀ p ∈ layoutPairs blocks, ∀ q ∈ layoutPairs blocks, p ≠ q → p.2 = q.2 →
      ¬ overlaps p.1 q.1 := by
  intro p hp q hq hne hcol
  have hsorted : List.Pairwise (fun a b => startM a ≤ startM b) (blocks.mergeSort blockLE) :=
    (List.sorted_mergeSort blockLE_trans blockLE_total blocks).imp
      (fun hab => blockLE_start_le hab)
  have hps : List.Pairwise (fun a b : TimeBlockData × Nat => startM a.1 ≤ startM b.1)
      (layoutPairs blocks) := by
    have h2 : List.Pairwise (fun a b => startM a ≤ startM b)
        ((layoutPairs blocks).map Prod.fst) := by
      rw [layoutPairs, assignCols_map_fst]
      exact hsorted
    rw [List.pairwise_map] at h2
    exact h2
  have hocc : List.Pairwise (fun a b : TimeBlockData × Nat => endM a.1 ≤ startM b.1)
      (occupants (layoutPairs blocks) p.2) :=
    chain_and_sorted_pairwise _ ((assignCols_chain (blocks.mergeSort blockLE) [] p.2).1)
      (hps.filter _)
  have hsym : List.Pairwise
      (fun a b : TimeBlockData × Nat => endM a.1 ≤ startM b.1 ∨ endM b.1 ≤ startM a.1)
      (occupants (layoutPairs blocks) p.2) := hocc.imp Or.inl
  have hmp : p ∈ occupants (layoutPairs blocks) p.2 :=
    List.mem_filter.mpr ⟨hp, by simp⟩
  have hmq : q ∈ occupants (layoutPairs blocks) p.2 :=
    List.mem_filter.mpr ⟨hq, by simp [hcol.symm]⟩
  have hrel := hsym.forall (fun x y h => h.symm) hmp hmq hne
  intro hov
  rcases hrel with h | h
  · exact absurd hov.2 (not_lt.mpr h)
  · exact absurd hov.1 (not_lt.mpr h)

/-- C2: distinct blocks assigned the same column never have overlapping
half-open `[start, end)` ranges (for inputs whose block uids are distinct,
as Roam block uids are). -/
theorem claim2_layout_non_overlap (blocks : List TimeBlockData)
    (hnd : (blocks.map TimeBlockData.uid).Nodup) :
    ∀ la ∈ calculateBlockLayouts blocks, ∀ lb ∈ calculateBlockLayouts blocks,
      la.block.uid ≠ lb.block.uid → la.column = lb.column →
        ¬ overlaps la.block lb.block := by
  intro la hla lb hlb hne hcol
  rw [calculateBlockLayouts_eq blocks hnd] at hla hlb
  obtain ⟨p, hp, hpe⟩ := List.mem_map.mp hla
  obtain ⟨q, hq, hqe⟩ := List.mem_map.mp hlb
  subst hpe
  subst hqe
  have hpq : p ≠ q := fun h => hne (by rw [h])
  exact layoutPairs_no_overlap blocks p hp q hq hpq hcol

unseal List.merge List.mergeSort in
/-- Witness for C2 at the fixture input: A:[0,60] and C:[100,120] share
column 0 and indeed do not overlap. -/
theorem claim2_layout_non_overlap_witness : ¬ overlaps fixA fixC :=
  claim2_layout_non_overlap [fixA, fixB, fixC] (by decide)
    ⟨fixA, 0, 2⟩ (by decide) ⟨fixC, 0, 1⟩ (by decide) (by decide) rfl

theorem decide_overlaps (a b : TimeBlockData) :
    decide (overlaps a b) =
      (decide (startM a < endM b) && decide (endM a > startM b)) := by
  by_cases h : overlaps a b
  · rw [decide_eq_true h, decide_eq_true h.1, decide_eq_true h.2]
    rfl
  · rw [decide_eq_false h]
    have h2 := h
    unfold overlaps at h2
    rcases not_and_or.mp h2 with h3 | h3
    · rw [decide_eq_false h3]
      rfl
    · rw [decide_eq_false h3, Bool.and_false]

theorem foldl_max_filter {α : Type} (p : α → Bool) (f : α → Nat) :
    ∀ (l : List α) (a : Nat),
      l.foldl (fun acc x => if p x then max acc (f x) else acc) a =
        ((l.filter p).map f).foldl max a := by
  intro l
  induction l with
  | nil => intro a; rfl
  | cons x t ih =>
    intro a
    rw [List.foldl_cons, List.filter_cons]
    by_cases hp : p x = true
    · rw [if_pos hp, if_pos hp, List.map_cons, List.foldl_cons]
      exact ih _
    · rw [if_neg hp, if_neg hp]
      exact ih _

/-- `directSpan` over a decorated pair list, reduced to the pair list. -/
theorem directSpan_map_eq (ps : List (TimeBlockData × Nat)) (h : TimeBlockData × Nat → Nat)
    (b : TimeBlockData) (c : Nat) (x : Nat) :
    directSpan (ps.map (fun q => ⟨q.1, q.2, h q⟩)) ⟨b, c, x⟩ =
      1 + ((ps.filter
          (fun q => !(q.1.uid = b.uid : Bool) && decide (overlaps b q.1))).map
        (fun q => q.2)).foldl max c := by
  unfold directSpan
  rw [List.filter_map, List.map_map]
  rfl

/-- The second-pass fold equals the filtered-maximum form. -/
theorem directMax_eq_foldl (ps : List (TimeBlockData × Nat)) (b : TimeBlockData) (c : Nat) :
    directMax ps b c =
      ((ps.filter
          (fun q => !(q.1.uid = b.uid : Bool) && decide (overlaps b q.1))).map
        (fun q => q.2)).foldl max c := by
  unfold directMax
  have hstep := foldl_congr_mem (f := fun (acc : Nat) (q : TimeBlockData × Nat) =>
      if q.1.uid = b.uid then acc
      else if decide (startM b < endM q.1) && decide (endM b > startM q.1) then
        max acc q.2
      else acc)
    (g := fun (acc : Nat) (q : TimeBlockData × Nat) =>
      if (!(q.1.uid = b.uid : Bool) && decide (overlaps b q.1)) then max acc q.2 else acc)
    ps c ?_
  · rw [hstep]
    exact foldl_max_filter
      (fun q : TimeBlockData × Nat => !(q.1.uid = b.uid : Bool) && decide (overlaps b q.1))
      (fun q : TimeBlockData × Nat => q.2) ps c
  · intro q _ acc
    dsimp only
    by_cases hu : q.1.uid = b.uid
    · simp [hu]
    · rw [decide_overlaps]
      simp [hu]

/-- The `totalColumns` the code computes equals the filtered-maximum form of
the direct-overlap span. -/
theorem directMax_eq_span (ps : List (TimeBlockData × Nat)) (p : TimeBlockData × Nat) :
    directMax ps p.1 p.2 + 1 =
      directSpan (ps.map (fun q => ⟨q.1, q.2, directMax ps q.1 q.2 + 1⟩))
        ⟨p.1, p.2, directMax ps p.1 p.2 + 1⟩ := by
  rw [directSpan_map_eq, directMax_eq_foldl]
  omega

unseal List.merge List.mergeSort in
/-- C1, amended: `totalColumns` of a layout entry is one more than the
maximum among its own column and the columns of entries whose block
*directly* overlaps it (not its transitive overlap group); the fixture
A:[0,60], B:[30,90], C:[100,120] yields A→column 0 of 2, B→column 1 of 2,
C→column 0 of 1. -/
theorem claim1_layout_total_columns :
    (∀ (blocks : List TimeBlockData), (blocks.map TimeBlockData.uid).Nodup →
      ∀ l ∈ calculateBlockLayouts blocks,
        l.totalColumns = directSpan (calculateBlockLayouts blocks) l) ∧
    calculateBlockLayouts [fixA, fixB, fixC] =
      [⟨fixA, 0, 2⟩, ⟨fixB, 1, 2⟩, ⟨fixC, 0, 1⟩] := by
  constructor
  · intro blocks hnd l hl
    rw [calculateBlockLayouts_eq blocks hnd] at hl ⊢
    obtain ⟨p, hp, hpe⟩ := List.mem_map.mp hl
    subst hpe
    exact directMax_eq_span (layoutPairs blocks) p
  · decide

unseal List.merge List.mergeSort in
/-- Witness for C1's amended general part at the fixture input. -/
theorem claim1_layout_total_columns_witness :
    (⟨fixA, 0, 2⟩ : BlockLayout).totalColumns =
      directSpan (calculateBlockLayouts [fixA, fixB, fixC]) ⟨fixA, 0, 2⟩ :=
  claim1_layout_total_columns.1 [fixA, fixB, fixC] (by decide) ⟨fixA, 0, 2⟩ (by decide)

unseal List.merge List.mergeSort in
/-- Counterexample to C1 as stated: on `groupEx`, the entry for block S has
`totalColumns = 2`, but its transitive overlap group contains block R in
column 2, so one more than the group's maximum column is 3. -/
theorem claim1_layout_total_columns_counterexample :
    ¬ (∀ l ∈ calculateBlockLayouts groupEx,
        l.totalColumns = transGroupSpan groupEx l.block) := by
  decide

/-- A permutation with pairwise sorted lists and antisymmetry on members is
an equality. -/
theorem perm_sorted_eq {α : Type} {le : α → α → Bool} :
    ∀ (l1 l2 : List α), List.Perm l1 l2 →
      List.Pairwise (fun a b => le a b = true) l1 →
      List.Pairwise (fun a b => le a b = true) l2 →
      (∀ a ∈ l1, ∀ b ∈ l1, le a b = true → le b a = true → a = b) →
      l1 = l2 := by
  intro l1
  induction l1 with
  | nil => intro l2 hp _ _ _; exact hp.nil_eq
  | cons a t ih =>
    intro l2 hp h1 h2 hanti
    cases l2 with
    | nil => exact absurd hp.symm (by simp)
    | cons b t2 =>
      have hb1 : b ∈ a :: t := hp.mem_iff.mpr (List.mem_cons_self b t2)
      have hab : a = b := by
        by_cases h : a = b
        · exact h
        · have ha2 : a ∈ b :: t2 := hp.mem_iff.mp (List.mem_cons_self a t)
          have hab2 : le a b = true := by
            rcases List.mem_cons.mp hb1 with he | hm
            · exact absurd he.symm h
            · exact (List.pairwise_cons.mp h1).1 b hm
          have hba : le b a = true := by
            rcases List.mem_cons.mp ha2 with he | hm
            · exact absurd he h
            · exact (List.pairwise_cons.mp h2).1 a hm
          exact hanti a (List.mem_cons_self a t) b hb1 hab2 hba
      subst hab
      have hp2 : List.Perm t t2 := hp.cons_inv
      have ht : t = t2 := ih t2 hp2 (List.pairwise_cons.mp h1).2 (List.pairwise_cons.mp h2).2
        (fun x hx y hy => hanti x (List.mem_cons_of_mem _ hx) y (List.mem_cons_of_mem _ hy))
      rw [ht]

theorem blockLE_antisymm_on {l : List TimeBlockData}
    (hkey : ∀ a ∈ l, ∀ b ∈ l, startM a = startM b → endM a = endM b → a = b) :
    ∀ a ∈ l, ∀ b ∈ l, blockLE a b = true → blockLE b a = true → a = b := by
  intro a ha b hb hab hba
  simp only [blockLE, Bool.or_eq_true, Bool.and_eq_true, decide_eq_true_eq] at hab hba
  exact hkey a ha b hb (by omega) (by omega)

/-- C3, amended: the layout output depends only on the input set whenever no
two distinct input blocks share both start and end (the code's stable sort
leaves exact ties to insertion order). -/
theorem claim3_layout_order_independence (l1 l2 : List TimeBlockData)
    (hperm : List.Perm l1 l2)
    (hkey : ∀ a ∈ l1, ∀ b ∈ l1, startM a = startM b → endM a = endM b → a = b) :
    calculateBlockLayouts l1 = calculateBlockLayouts l2 := by
  have hs1 : List.Pairwise (fun a b => blockLE a b = true) (l1.mergeSort blockLE) :=
    List.sorted_mergeSort blockLE_trans blockLE_total l1
  have hs2 : List.Pairwise (fun a b => blockLE a b = true) (l2.mergeSort blockLE) :=
    List.sorted_mergeSort blockLE_trans blockLE_total l2
  have hpm : List.Perm (l1.mergeSort blockLE) (l2.mergeSort blockLE) :=
    ((List.mergeSort_perm l1 blockLE).trans hperm).trans (List.mergeSort_perm l2 blockLE).symm
  have hmem : ∀ a ∈ l1.mergeSort blockLE, a ∈ l1 := fun a ha =>
    (List.mergeSort_perm l1 blockLE).subset ha
  have hsorted_eq : l1.mergeSort blockLE = l2.mergeSort blockLE :=
    perm_sorted_eq _ _ hpm hs1 hs2
      (fun a ha b hb => blockLE_antisymm_on hkey a (hmem a ha) b (hmem b hb))
  unfold calculateBlockLayouts
  rw [hperm.length_eq, hsorted_eq]

unseal List.merge List.mergeSort in
/-- Witness for C3's amended statement on a two-block permutation with
distinct sort keys. -/
theorem claim3_layout_order_independence_witness :
    calculateBlockLayouts [fixA, fixB] = calculateBlockLayouts [fixB, fixA] :=
  claim3_layout_order_independence [fixA, fixB] [fixB, fixA]
    (by decide) (by decide)

unseal List.merge List.mergeSort in
/-- Counterexample to C3 as stated: the input sets `[X, Y]` and `[Y, X]` of
two identical intervals with distinct uids are permutations of one another,
yet the layouts assign X column 0 in one order and column 1 in the other,
so the output assignment sets differ. -/
theorem claim3_layout_order_independence_counterexample :
    List.Perm [twinX, twinY] [twinY, twinX] ∧
    ¬ List.Perm (calculateBlockLayouts [twinX, twinY])
      (calculateBlockLayouts [twinY, twinX]) :=
  ⟨by decide, by decide⟩

theorem specLE_eq_blockLE : specLE = blockLE := by
  funext a b
  by_cases h : startM a = startM b
  · simp only [specLE, blockLE, h]
    rw [decide_eq_decide.mpr (by omega :
      (endM b - startM b ≤ endM a - startM b) ↔ (endM b ≤ endM a))]
  · simp [specLE, blockLE, h]

unseal List.merge List.mergeSort in
/-- C4: the layout sorts by start ascending with longer duration first on
ties and assigns greedily to the first column whose frontier has closed
(`specAssignment` is that description verbatim); on A:[0,90], B:[0,30] the
longer block A gets column 0, B column 1, both with `totalColumns = 2`. -/
theorem claim4_sort_and_greedy_assignment :
    (∀ (blocks : List TimeBlockData), (blocks.map TimeBlockData.uid).Nodup →
      (calculateBlockLayouts blocks).map (fun l => (l.block, l.column)) =
        specAssignment blocks) ∧
    calculateBlockLayouts [tieA, tieB] = [⟨tieA, 0, 2⟩, ⟨tieB, 1, 2⟩] := by
  constructor
  · intro blocks hnd
    rw [calculateBlockLayouts_eq blocks hnd, List.map_map]
    have hfun : ((fun l : BlockLayout => (l.block, l.column)) ∘
        (fun p : TimeBlockData × Nat =>
          ⟨p.1, p.2, directMax (layoutPairs blocks) p.1 p.2 + 1⟩)) =
        (fun p : TimeBlockData × Nat => (p.1, p.2)) := rfl
    rw [hfun]
    unfold specAssignment
    rw [specLE_eq_blockLE]
    simp [layoutPairs]
  · decide

unseal List.merge List.mergeSort in
/-- Witness for C4's general part at the tie fixture. -/
theorem claim4_sort_and_greedy_assignment_witness :
    (calculateBlockLayouts [tieA, tieB]).map (fun l => (l.block, l.column)) =
      specAssignment [tieA, tieB] :=
  claim4_sort_and_greedy_assignment.1 [tieA, tieB] (by decide)

/-! ## Scanner lemmas -/

theorem filterMap_congr_mem {α β : Type} {f g : α → Option β} :
    ∀ l : List α, (∀ a ∈ l, f a = g a) → l.filterMap f = l.filterMap g := by
  intro l
  induction l with
  | nil => intro _; rfl
  | cons x t ih =>
    intro h
    rw [List.filterMap_cons, List.filterMap_cons, h x (List.mem_cons_self x t),
      ih (fun a ha => h a (List.mem_cons_of_mem x ha))]

/-- On a validated range, the +1440-minute shift is exactly adding 24 to
both hour fields. -/
theorem shift1440_eq {r : ParsedTimeRange} (h : isValidTimeRange r = true) :
    shift1440 r = { r with startHour := r.startHour + 24, endHour := r.endHour + 24 } := by
  have hb := isValidTimeRange_bounds h
  obtain ⟨sh, sm, eh, em, ot⟩ := r
  simp only at hb
  unfold shift1440 timeRangeToMinutes
  simp only [ParsedTimeRange.mk.injEq, eq_self_iff_true, and_true]
  refine ⟨?_, ?_, ?_, ?_⟩ <;> omega

/-! ## Symbolic evaluation of the 24-hour pattern -/

theorem digit_not_space {c : Char} (h : isDigitChar c = true) : isSpaceChar c = false := by
  have hne : ∀ d : Char, isDigitChar d = false → ¬ c = d := by
    intro d hd he
    rw [he, hd] at h
    cases h
  unfold isSpaceChar
  rw [decide_eq_false (hne ' ' (by decide)), decide_eq_false (hne '\t' (by decide)),
    decide_eq_false (hne '\n' (by decide)), decide_eq_false (hne '\r' (by decide)),
    decide_eq_false (hne '\x0b' (by decide)), decide_eq_false (hne '\x0c' (by decide)),
    decide_eq_false (hne (Char.ofNat 160) (by decide))]
  rfl

/-- Pattern 1 matches at the start of `HH:MM-HH:MM` followed by anything the
lookahead rejects, with two-digit hours. -/
theorem p1At_two_two (a1 a2 b1 b2 c1 c2 e1 e2 : Char) (sfx : List Char)
    (h1 : isDigitChar a1 = true) (h2 : isDigitChar a2 = true)
    (h3 : isDigitChar b1 = true) (h4 : isDigitChar b2 = true)
    (h5 : isDigitChar c1 = true) (h6 : isDigitChar c2 = true)
    (h7 : isDigitChar e1 = true) (h8 : isDigitChar e2 = true)
    (hnap : lookaheadAP sfx = false) :
    p1At (a1 :: a2 :: ':' :: b1 :: b2 :: '-' :: c1 :: c2 :: ':' :: e1 :: e2 :: sfx) =
      some ([a1, a2, ':', b1, b2, '-', c1, c2, ':', e1, e2],
        [a1, a2], [b1, b2], [c1, c2], [e1, e2]) := by
  simp [p1At, takeDigits12, takeMin2, takeSpaces, h1, h2, h3, h4, h5, h6, h7, h8,
    digit_not_space h5, hnap,
    (by decide : isSpaceChar '-' = false)]

/-- Pattern 1 matches at the start of any `H:MM-H:MM` (one- or two-digit
hours) not followed by the am/pm lookahead, whatever else follows. -/
theorem p1At_shape (hs1 hs2 : List Char) (b1 b2 e1 e2 : Char) (sfx : List Char)
    (hl1 : hs1.length = 1 ∨ hs1.length = 2) (hd1 : ∀ c ∈ hs1, isDigitChar c = true)
    (hl2 : hs2.length = 1 ∨ hs2.length = 2) (hd2 : ∀ c ∈ hs2, isDigitChar c = true)
    (h3 : isDigitChar b1 = true) (h4 : isDigitChar b2 = true)
    (h7 : isDigitChar e1 = true) (h8 : isDigitChar e2 = true)
    (hnap : lookaheadAP sfx = false) :
    p1At (hs1 ++ ':' :: b1 :: b2 :: '-' :: (hs2 ++ ':' :: e1 :: e2 :: sfx)) =
      some (hs1 ++ ':' :: b1 :: b2 :: '-' :: (hs2 ++ ':' :: e1 :: e2 :: []),
        hs1, [b1, b2], hs2, [e1, e2]) := by
  rcases hl1 with hl1 | hl1
  · obtain ⟨a, rfl⟩ := List.length_eq_one.mp hl1
    have ha := hd1 a (by simp)
    rcases hl2 with hl2 | hl2
    · obtain ⟨c, rfl⟩ := List.length_eq_one.mp hl2
      have hc := hd2 c (by simp)
      simp [p1At, takeDigits12, takeMin2, takeSpaces, ha, hc, h3, h4, h7, h8,
        digit_not_space hc, hnap,
        (by decide : isSpaceChar '-' = false), (by decide : isDigitChar ':' = false)]
    · obtain ⟨c1, c2, rfl⟩ := List.length_eq_two.mp hl2
      have hc1 := hd2 c1 (by simp)
      have hc2 := hd2 c2 (by simp)
      simp [p1At, takeDigits12, takeMin2, takeSpaces, ha, hc1, hc2, h3, h4, h7, h8,
        digit_not_space hc1, hnap,
        (by decide : isSpaceChar '-' = false), (by decide : isDigitChar ':' = false)]
  · obtain ⟨a1, a2, rfl⟩ := List.length_eq_two.mp hl1
    have ha1 := hd1 a1 (by simp)
    have ha2 := hd1 a2 (by simp)
    rcases hl2 with hl2 | hl2
    · obtain ⟨c, rfl⟩ := List.length_eq_one.mp hl2
      have hc := hd2 c (by simp)
      simp [p1At, takeDigits12, takeMin2, takeSpaces, ha1, ha2, hc, h3, h4, h7, h8,
        digit_not_space hc, hnap,
        (by decide : isSpaceChar '-' = false), (by decide : isDigitChar ':' = false)]
    · obtain ⟨c1, c2, rfl⟩ := List.length_eq_two.mp hl2
      have hc1 := hd2 c1 (by simp)
      have hc2 := hd2 c2 (by simp)
      simp [p1At, takeDigits12, takeMin2, takeSpaces, ha1, ha2, hc1, hc2, h3, h4, h7, h8,
        digit_not_space hc1, hnap,
        (by decide : isSpaceChar '-' = false), (by decide : isDigitChar ':' = false)]

theorem searchAt_cons_some {α : Type} (m : List Char → Option α) (c : Char) (cs : List Char)
    {r : α} (h : m (c :: cs) = some r) : searchAt m (c :: cs) = some r := by
  rw [searchAt, h]

theorem pad2_toList {n : Int} (h0 : 0 ≤ n) (h59 : n ≤ 59) :
    (pad2 n).toList = [dTens n, dOnes n] := by
  interval_cases n <;> decide

theorem dTens_digit {n : Int} (h0 : 0 ≤ n) (h59 : n ≤ 59) : isDigitChar (dTens n) = true := by
  interval_cases n <;> decide

theorem dOnes_digit {n : Int} (h0 : 0 ≤ n) (h59 : n ≤ 59) : isDigitChar (dOnes n) = true := by
  interval_cases n <;> decide

theorem digitsVal_two {n : Int} (h0 : 0 ≤ n) (h59 : n ≤ 59) :
    digitsVal [dTens n, dOnes n] = n := by
  interval_cases n <;> decide

theorem toList_formatTimeRange {h1 m1 h2 m2 : Int}
    (hh1 : 0 ≤ h1 ∧ h1 ≤ 23) (hm1 : 0 ≤ m1 ∧ m1 ≤ 59)
    (hh2 : 0 ≤ h2 ∧ h2 ≤ 23) (hm2 : 0 ≤ m2 ∧ m2 ≤ 59) :
    (formatTimeRange h1 m1 h2 m2).toList =
      dTens h1 :: dOnes h1 :: ':' :: dTens m1 :: dOnes m1 :: '-' ::
        dTens h2 :: dOnes h2 :: ':' :: dTens m2 :: dOnes m2 :: [] := by
  unfold formatTimeRange
  have happ : ∀ a b : String, (a ++ b).toList = a.toList ++ b.toList := fun _ _ => rfl
  rw [happ, happ, happ, happ, happ, happ, pad2_toList hh1.1 (by omega),
    pad2_toList hm1.1 hm1.2, pad2_toList hh2.1 (by omega), pad2_toList hm2.1 hm2.2]
  rfl

theorem isValidTimeRange_intro {r : ParsedTimeRange}
    (hb : 0 ≤ r.startHour ∧ r.startHour ≤ 23 ∧ 0 ≤ r.endHour ∧ r.endHour ≤ 23 ∧
      0 ≤ r.startMinute ∧ r.startMinute ≤ 59 ∧ 0 ≤ r.endMinute ∧ r.endMinute ≤ 59 ∧
      r.startHour * 60 + r.startMinute ≤ r.endHour * 60 + r.endMinute) :
    isValidTimeRange r = true := by
  unfold isValidTimeRange
  split
  · rename_i hA
    exfalso
    simp only [Bool.or_eq_true, decide_eq_true_eq] at hA
    omega
  · split
    · rename_i hB
      exfalso
      simp only [Bool.or_eq_true, decide_eq_true_eq] at hB
      omega
    · exact decide_eq_true (by omega)

/-- A validated leftmost pattern-1 match is what `parseTimeRange` returns. -/
theorem parseTimeRange_of_p1 (text : String)
    (r0 : List Char × List Char × List Char × List Char × List Char)
    (hsearch : searchAt p1At text.toList = some r0)
    (hvalid : isValidTimeRange (parseFromP1 r0) = true) :
    parseTimeRange text = some (parseFromP1 r0) := by
  unfold parseTimeRange
  dsimp only
  rw [hsearch, Option.map_some', firstValid, if_pos hvalid]

/-- C7: for every valid two-digit `HH:MM-HH:MM` literal with end not before
start, parsing succeeds, `originalText` equals the exact matched substring
(the whole literal), and formatting the parsed fields reproduces the
original literal character for character. -/
theorem claim7_parser_round_trip (h1 m1 h2 m2 : Int)
    (hh1 : 0 ≤ h1 ∧ h1 ≤ 23) (hm1 : 0 ≤ m1 ∧ m1 ≤ 59)
    (hh2 : 0 ≤ h2 ∧ h2 ≤ 23) (hm2 : 0 ≤ m2 ∧ m2 ≤ 59)
    (hord : h1 * 60 + m1 ≤ h2 * 60 + m2) :
    ∃ r, parseTimeRange (formatTimeRange h1 m1 h2 m2) = some r ∧
      r.originalText = formatTimeRange h1 m1 h2 m2 ∧
      formatTimeRange r.startHour r.startMinute r.endHour r.endMinute =
        formatTimeRange h1 m1 h2 m2 := by
  refine ⟨⟨h1, m1, h2, m2, formatTimeRange h1 m1 h2 m2⟩, ?_, rfl, rfl⟩
  have hcs := toList_formatTimeRange hh1 hm1 hh2 hm2
  have hsearch := searchAt_cons_some p1At _ _
    (p1At_two_two (dTens h1) (dOnes h1) (dTens m1) (dOnes m1) (dTens h2) (dOnes h2)
      (dTens m2) (dOnes m2) []
      (dTens_digit hh1.1 (by omega)) (dOnes_digit hh1.1 (by omega))
      (dTens_digit hm1.1 hm1.2) (dOnes_digit hm1.1 hm1.2)
      (dTens_digit hh2.1 (by omega)) (dOnes_digit hh2.1 (by omega))
      (dTens_digit hm2.1 hm2.2) (dOnes_digit hm2.1 hm2.2) rfl)
  have hparse1 : parseFromP1
      ([dTens h1, dOnes h1, ':', dTens m1, dOnes m1, '-', dTens h2, dOnes h2, ':',
         dTens m2, dOnes m2],
       [dTens h1, dOnes h1], [dTens m1, dOnes m1], [dTens h2, dOnes h2],
       [dTens m2, dOnes m2]) =
      ⟨h1, m1, h2, m2, formatTimeRange h1 m1 h2 m2⟩ := by
    unfold parseFromP1
    rw [show ([dTens h1, dOnes h1, ':', dTens m1, dOnes m1, '-', dTens h2, dOnes h2, ':',
        dTens m2, dOnes m2] : List Char) = (formatTimeRange h1 m1 h2 m2).toList
      from hcs.symm]
    rw [digitsVal_two hh1.1 (by omega), digitsVal_two hm1.1 hm1.2,
      digitsVal_two hh2.1 (by omega), digitsVal_two hm2.1 hm2.2]
    rfl
  unfold parseTimeRange
  rw [hcs]
  dsimp only
  rw [hsearch, Option.map_some', hparse1, firstValid,
    if_pos (isValidTimeRange_intro
      ⟨hh1.1, hh1.2, hh2.1, hh2.2, hm1.1, hm1.2, hm2.1, hm2.2, hord⟩)]

/-- Witness for C7 at the literal `"09:05-23:59"`. -/
theorem claim7_parser_round_trip_witness :
    ∃ r, parseTimeRange (formatTimeRange 9 5 23 59) = some r ∧
      r.originalText = formatTimeRange 9 5 23 59 ∧
      formatTimeRange r.startHour r.startMinute r.endHour r.endMinute =
        formatTimeRange 9 5 23 59 :=
  claim7_parser_round_trip 9 5 23 59 (by decide) (by decide) (by decide) (by decide)
    (by decide)

/-- C8: `"10:00-12:00"` parses via the 24-hour pattern; `"10:00am-12:00pm"`
is never matched by the 24-hour pattern (the negative lookahead holds) and
parses via the 12-hour-with-minutes pattern, hour 12 converting to 0 for am
and 12 for pm and other hours gaining 12 for pm; and any `H:MM-H:MM` whose
continuation fails the `\s*[ap]` lookahead is matched by the 24-hour
pattern at the literal itself, whatever other text follows, a validated
such match being what `parseTimeRange` returns. -/
theorem claim8_pattern_ambiguity :
    parseTimeRange "10:00-12:00" = some ⟨10, 0, 12, 0, "10:00-12:00"⟩ ∧
    (searchAt p1At "10:00-12:00".toList).isSome = true ∧
    searchAt p1At "10:00am-12:00pm".toList = none ∧
    parseTimeRange "10:00am-12:00pm" = some ⟨10, 0, 12, 0, "10:00am-12:00pm"⟩ ∧
    (searchAt p2At "10:00am-12:00pm".toList).isSome = true ∧
    (convert12to24 12 "am" = 0 ∧ convert12to24 12 "pm" = 12 ∧
      ∀ h : Int, h ≠ 12 → convert12to24 h "am" = h ∧ convert12to24 h "pm" = h + 12) ∧
    (∀ (hs1 hs2 : List Char) (b1 b2 e1 e2 : Char) (sfx : List Char),
      hs1.length = 1 ∨ hs1.length = 2 → (∀ c ∈ hs1, isDigitChar c = true) →
      hs2.length = 1 ∨ hs2.length = 2 → (∀ c ∈ hs2, isDigitChar c = true) →
      isDigitChar b1 = true → isDigitChar b2 = true →
      isDigitChar e1 = true → isDigitChar e2 = true →
      lookaheadAP sfx = false →
      searchAt p1At (hs1 ++ ':' :: b1 :: b2 :: '-' :: (hs2 ++ ':' :: e1 :: e2 :: sfx)) =
        some (hs1 ++ ':' :: b1 :: b2 :: '-' :: (hs2 ++ ':' :: e1 :: e2 :: []),
          hs1, [b1, b2], hs2, [e1, e2])) ∧
    (∀ (text : String) (r0 : List Char × List Char × List Char × List Char × List Char),
      searchAt p1At text.toList = some r0 →
      isValidTimeRange (parseFromP1 r0) = true →
      parseTimeRange text = some (parseFromP1 r0)) := by
  refine ⟨by decide, by decide, by decide, by decide, by decide, ⟨by decide, by decide, ?_⟩,
    ?_, parseTimeRange_of_p1⟩
  · intro h hne
    constructor
    · simp [convert12to24, hne, (by decide : ¬(jsToLowerCase "am" = "pm"))]
    · simp [convert12to24, hne, (by decide : jsToLowerCase "pm" = "pm")]
  · intro hs1 hs2 b1 b2 e1 e2 sfx hl1 hd1 hl2 hd2 h3 h4 h7 h8 hnap
    rcases hl1 with hl1 | hl1
    · obtain ⟨a, rfl⟩ := List.length_eq_one.mp hl1
      exact searchAt_cons_some p1At _ _
        (p1At_shape [a] hs2 b1 b2 e1 e2 sfx (Or.inl hl1) hd1 hl2 hd2 h3 h4 h7 h8 hnap)
    · obtain ⟨a1, a2, rfl⟩ := List.length_eq_two.mp hl1
      exact searchAt_cons_some p1At _ _
        (p1At_shape [a1, a2] hs2 b1 b2 e1 e2 sfx (Or.inr hl1) hd1 hl2 hd2 h3 h4 h7 h8 hnap)

/-- Witness for C8's conditional parts: the general 24-hour match applied to
`"7:05-09:30 then rest"` and the bridge applied to `"10:00-12:00"`. -/
theorem claim8_pattern_ambiguity_witness :
    searchAt p1At ("7:05-09:30 then rest".toList) =
      some ("7:05-09:30".toList, ['7'], ['0', '5'], ['0', '9'], ['3', '0']) ∧
    parseTimeRange "10:00-12:00" =
      some (parseFromP1 ("10:00-12:00".toList, ['1', '0'], ['0', '0'], ['1', '2'],
        ['0', '0'])) ∧
    convert12to24 7 "am" = 7 ∧ convert12to24 7 "pm" = 19 := by
  refine ⟨?_, ?_, ?_⟩
  · have h := claim8_pattern_ambiguity.2.2.2.2.2.2.1 ['7'] ['0', '9'] '0' '5' '3' '0'
      (' ' :: "then rest".toList) (Or.inl rfl) (by decide) (Or.inr rfl) (by decide)
      (by decide) (by decide) (by decide) (by decide) (by decide)
    simpa using h
  · exact claim8_pattern_ambiguity.2.2.2.2.2.2.2 "10:00-12:00"
      ("10:00-12:00".toList, ['1', '0'], ['0', '0'], ['1', '2'], ['0', '0'])
      (by decide) (by decide)
  · have h := claim8_pattern_ambiguity.2.2.2.2.2.1.2.2 7 (by decide)
    exact ⟨h.1, h.2⟩

/-- C10: the orchestrated page scan equals the spec-side description — a
parsed record survives iff its category resolves whenever at least one
category is configured, and, in a next-day scope, iff it starts before the
boundary hour, in which case its interval is shifted by +1440 minutes by
the orchestrator; the parser itself always returns pre-shift values below
1440 minutes. -/
theorem claim10_scan_filters_and_shift :
    (∀ (blocks : List RawBlock) (contentMap parentMap : String → Option String)
        (configuredTags : List TagConfig) (isNextDay : Bool) (dayBoundaryHour : Int),
      scanPageForTimeBlocks blocks contentMap parentMap configuredTags isNextDay
          dayBoundaryHour =
        specScanPage blocks contentMap parentMap configuredTags isNextDay dayBoundaryHour) ∧
    (∀ (text : String) (r : ParsedTimeRange), parseTimeRange text = some r →
      0 ≤ (timeRangeToMinutes r).1 ∧ (timeRangeToMinutes r).1 < 1440 ∧
      0 ≤ (timeRangeToMinutes r).2 ∧ (timeRangeToMinutes r).2 < 1440) := by
  constructor
  · intro blocks cm pm configs nd bh
    unfold scanPageForTimeBlocks specScanPage
    refine filterMap_congr_mem blocks ?_
    intro block _
    simp only [createBatchTagResolver]
    cases hparse : parseTimeRange block.string with
    | none => rfl
    | some r =>
      dsimp only
      have hv := parseTimeRange_valid hparse
      by_cases hnd : nd = true
      · subst hnd
        by_cases hge : r.startHour ≥ bh
        · simp [hge]
        · by_cases hcat : findAssociatedTagBatch block.uid (buildTagMatchers configs) cm pm
              = none
          · by_cases hcfg : configs = []
            · simp [hge, hcat, hcfg, shift1440_eq hv]
            · simp [hge, hcat, hcfg, List.length_eq_zero]
          · simp [hge, hcat, Option.isSome_iff_ne_none, shift1440_eq hv]
      · have hnd2 : nd = false := by
          cases nd
          · rfl
          · exact absurd rfl hnd
        subst hnd2
        by_cases hcat : findAssociatedTagBatch block.uid (buildTagMatchers configs) cm pm
            = none
        · by_cases hcfg : configs = []
          · simp [hcat, hcfg]
          · simp [hcat, hcfg, List.length_eq_zero]
        · simp [hcat, Option.isSome_iff_ne_none]
  · intro text r h
    have hb := isValidTimeRange_bounds (parseTimeRange_valid h)
    unfold timeRangeToMinutes
    refine ⟨by omega, by omega, by omega, by omega⟩

/-- Witness for C10: the spec-equality and parser bound at a one-block
next-day snapshot with no categories configured. -/
theorem claim10_scan_filters_and_shift_witness :
    (scanPageForTimeBlocks [⟨"b1", "03:30-04:15 jog", "p1", 0⟩]
        (fun _ => none) (fun _ => none) [] true 5 =
      specScanPage [⟨"b1", "03:30-04:15 jog", "p1", 0⟩]
        (fun _ => none) (fun _ => none) [] true 5) ∧
    (0 ≤ ((3 : Int) * 60 + 30) ∧ (3 : Int) * 60 + 30 < 1440 ∧
      0 ≤ ((4 : Int) * 60 + 15) ∧ (4 : Int) * 60 + 15 < 1440) :=
  ⟨claim10_scan_filters_and_shift.1 [⟨"b1", "03:30-04:15 jog", "p1", 0⟩]
      (fun _ => none) (fun _ => none) [] true 5,
    claim10_scan_filters_and_shift.2 "03:30-04:15 jog"
      ⟨3, 30, 4, 15, "03:30-04:15"⟩ (by decide)⟩

end RoamTB
